import Mathlib

/-!
Verification of the krypto agent core against its design spec.

The development shallowly embeds the three core components (tool registry and
dispatch from `src/tools/registry.py` and `src/tools/base.py`, the streaming
response decoder from `src/client/llm_client.py`, and the multi-turn agent loop
from `src/agent/agent.py`) as executable Lean definitions, and proves the
spec's testable properties about them.  Python dictionaries that preserve
insertion order are embedded as association lists; Python truthiness tests on
optional strings and lists are made explicit.
-/

namespace Krypto

/-! ### JSON values

Tool-call arguments travel as JSON text and are parsed into a structured
key-to-value mapping (a Python `dict`, embedded as an insertion-ordered
association list inside `Json.obj`). -/

/-- A JSON value, the shape of parsed tool-call arguments. -/
inductive Json where
  | null : Json
  | bool (b : Bool) : Json
  | num (n : Int) : Json
  | str (s : String) : Json
  | arr (xs : List Json) : Json
  | obj (fields : List (String × Json)) : Json

/-- Python truthiness of an optional string: `None` and `""` are falsy. -/
def truthyStr : Option String → Bool
  | none => false
  | some s => !s.isEmpty

/-- Python `str(x)` on an optional string: `None` renders as `"None"`. -/
def optStr : Option String → String
  | none => "None"
  | some s => s

/-! ### Tool results (`src/tools/base.py`)

`ToolResult.metadata` is declared `dict[str, Any]` in the source.  One code
path (`ToolRegistry.invoke`'s fault handler) passes the *set* literal
`{"tool_name", name}` instead of a dict, so the runtime value of the field is
embedded as a sum of the two Python shapes actually constructed. -/

/-- A metadata value stored in a `ToolResult.metadata` dict. -/
inductive MetaVal where
  | str (s : String) : MetaVal
  | strList (xs : List String) : MetaVal
  | int (n : Int) : MetaVal
  | bool (b : Bool) : MetaVal
  deriving Repr, DecidableEq

/-- Runtime value of the `metadata` field: the declared shape is a dict
(insertion-ordered association list), but `ToolRegistry.invoke`'s exception
handler constructs a Python set of strings. -/
inductive Metadata where
  | dict (entries : List (String × MetaVal)) : Metadata
  | set (elems : List String) : Metadata
  deriving Repr, DecidableEq

/-- `FileDiff` from `src/tools/base.py` (only the fields; `to_diff` is not
needed by any claim). -/
structure FileDiff where
  path : String
  old_content : String
  new_content : String
  is_new_file : Bool := false
  is_deletion : Bool := false
  deriving Repr, DecidableEq

/-- `ToolResult` from `src/tools/base.py`. -/
structure ToolResult where
  success : Bool
  output : String
  error : Option String := none
  metadata : Metadata := Metadata.dict []
  truncated : Bool := false
  diff : Option FileDiff := none
  deriving Repr, DecidableEq

/-- `ToolResult.error_result` (classmethod): a failed result with the given
error text, output and metadata. -/
def ToolResult.error_result (error : String) (output : String) (metadata : Metadata) :
    ToolResult :=
  { success := false, output := output, error := some error, metadata := metadata }

/-- `ToolResult.success_result` (classmethod): a successful result. -/
def ToolResult.success_result (output : String) (metadata : Metadata) : ToolResult :=
  { success := true, output := output, error := none, metadata := metadata }

/-- `ToolResult.to_model_output`: the raw output on success, otherwise the
f-string `Error: {error}\n\nOutput:\n{output}` (Python renders an unset error
field as `None`). -/
def ToolResult.to_model_output (r : ToolResult) : String :=
  if r.success then r.output
  else "Error: " ++ optStr r.error ++ "\n\nOutput:\n" ++ r.output

/-! ### Tools and parameter validation (`src/tools/base.py`) -/

/-- `ToolInvocation` from `src/tools/base.py`. -/
structure ToolInvocation where
  params : List (String × Json)
  cwd : String

/-- The `schema` property of a tool: either a pydantic `BaseModel` subclass or
a plain dict schema.  pydantic is an external library; its behaviour is
captured by the function giving, for each argument mapping, the list of
`(loc, msg)` validation-error records `ValidationError.errors()` would report
(empty when construction succeeds). -/
inductive ToolSchema where
  | model (validationFaults : List (String × Json) → List (List String × String)) : ToolSchema
  | rawDict : ToolSchema

/-- A registered tool: name, description, schema, and an execute operation
that may raise a fault (`Except.error` carries the Python exception's text).
Mirrors the `Tool` abstract class of `src/tools/base.py`. -/
structure Tool where
  name : String
  description : String
  schema : ToolSchema
  execute : ToolInvocation → Except String ToolResult

/-- `Tool.validate_params`: on a pydantic-model schema, construct the model
and turn each reported validation error into the message
`Parameter '<loc joined by .>': <msg>`; a non-model (dict) schema performs no
validation.  (The source's fallback for a non-`ValidationError` exception from
model construction is outside the pydantic behaviour modelled here.) -/
def Tool.validate_params (t : Tool) (params : List (String × Json)) : List String :=
  match t.schema with
  | ToolSchema.model faults =>
      (faults params).map
        (fun e => "Parameter '" ++ String.intercalate "." e.1 ++ "': " ++ e.2)
  | ToolSchema.rawDict => []

/-- Modelled from the spec: pydantic model construction (external library,
`src/tools/base.py` line 124 `schema(**params)`) reports, for each required
field missing from the arguments, one validation error whose location is that
field's name and whose message is pydantic's `Field required`.  `FieldSpec`
describes one declared model field. -/
structure FieldSpec where
  fname : String
  required : Bool
  deriving Repr, DecidableEq

/-- Modelled from the spec: the validation faults pydantic reports for a model
with the given declared fields — one `([field], "Field required")` record per
required field absent from the arguments. -/
def requiredFieldFaults (fields : List FieldSpec) (params : List (String × Json)) :
    List (List String × String) :=
  fields.filterMap
    (fun f =>
      if f.required && (params.lookup f.fname).isNone then
        some ([f.fname], "Field required")
      else none)

/-! ### Tool registry (`src/tools/registry.py`) -/

/-- The slice of `Config` the registry and agent loop consume.  The
`allowed_tools` field is the optional tool allow-list named by the spec's
configuration surface (`config/config.py` under `src/` is an older snapshot
without it; the registry reads `self.config.allowed_tools`). -/
structure Config where
  allowed_tools : Option (List String)
  max_turns : Nat

/-- `ToolRegistry`: the insertion-ordered name-to-tool dict plus the config. -/
structure ToolRegistry where
  tools : List (String × Tool)
  config : Config

/-- `ToolRegistry.get`: dict lookup, `None` when absent. -/
def ToolRegistry.get (r : ToolRegistry) (name : String) : Option Tool :=
  r.tools.lookup name

/-- `ToolRegistry.get_tools`: all registered tools in insertion order; when
`config.allowed_tools` is truthy (present and non-empty), keep only tools
whose name is in the allow-list. -/
def ToolRegistry.get_tools (r : ToolRegistry) : List Tool :=
  let tools := r.tools.map Prod.snd
  match r.config.allowed_tools with
  | none => tools
  | some allowed =>
      if allowed.isEmpty then tools
      else tools.filter (fun t => allowed.contains t.name)

/-- The advertised form of a tool schema (`Tool.to_openai_schema` builds a
dict from the tool's name and description plus pydantic's rendering of the
parameter model; the external pydantic JSON-schema rendering is not needed by
any claim, so only the identifying fields are kept). -/
structure AdvertisedSchema where
  name : String
  description : String
  deriving Repr, DecidableEq

/-- `Tool.to_openai_schema`, restricted to its identifying fields. -/
def Tool.to_openai_schema (t : Tool) : AdvertisedSchema :=
  { name := t.name, description := t.description }

/-- `ToolRegistry.get_schemas`: the advertised schemas of `get_tools`. -/
def ToolRegistry.get_schemas (r : ToolRegistry) : List AdvertisedSchema :=
  (r.get_tools).map Tool.to_openai_schema

/-- `ToolRegistry.invoke`: unknown name yields an error result; then
validation, which on any violation yields an aggregated error result without
executing; then the guarded execute, whose escaping fault is converted to an
error result whose metadata is the source's *set* literal
`{"tool_name", name}`. -/
def ToolRegistry.invoke (r : ToolRegistry) (name : String) (params : List (String × Json))
    (cwd : String) : ToolResult :=
  match r.get name with
  | none =>
      ToolResult.error_result ("Unknown tool: " ++ name) ""
        (Metadata.dict [("tool_name", MetaVal.str name)])
  | some tool =>
      let validation_errors := tool.validate_params params
      if validation_errors.isEmpty then
        match tool.execute { params := params, cwd := cwd } with
        | Except.ok result => result
        | Except.error e =>
            ToolResult.error_result ("Internal error: " ++ e) ""
              (Metadata.set ["tool_name", name])
      else
        ToolResult.error_result
          ("Invalid parameters: " ++ String.intercalate ";" validation_errors) ""
          (Metadata.dict
            [("tool_name", MetaVal.str name),
             ("validation_errors", MetaVal.strList validation_errors)])

/-- Replace the `execute` operation of every tool registered under `name`,
leaving everything else unchanged (used to state that a code path never calls
`execute`). -/
def ToolRegistry.setExecute (r : ToolRegistry) (name : String)
    (f : ToolInvocation → Except String ToolResult) : ToolRegistry :=
  { r with
    tools := r.tools.map
      (fun nt =>
        if nt.1 = name then (nt.1, { nt.2 with execute := f }) else nt) }

/-! ### Registry-layer theorems -/

/-- `List.lookup` finds the head binding when the key matches. -/
theorem lookup_cons_self {α : Type} (k : String) (t : α) (tl : List (String × α)) :
    List.lookup k ((k, t) :: tl) = some t := by
  simp [List.lookup]

/-- `List.lookup` skips the head binding when the key differs. -/
theorem lookup_cons_ne {α : Type} (a k : String) (t : α) (tl : List (String × α))
    (h : (a == k) = false) :
    List.lookup a ((k, t) :: tl) = List.lookup a tl := by
  simp [List.lookup, h]

/-- `List.lookup` commutes with `setExecute`'s per-binding map. -/
theorem lookup_setExecute (l : List (String × Tool)) (name : String)
    (f : ToolInvocation → Except String ToolResult) :
    (l.map (fun nt => if nt.1 = name then (nt.1, { nt.2 with execute := f }) else nt)).lookup name
      = (l.lookup name).map (fun t => { t with execute := f }) := by
  induction l with
  | nil => rfl
  | cons hd tl ih =>
    obtain ⟨k, t⟩ := hd
    rw [List.map_cons]
    by_cases h : k = name
    · subst h
      rw [if_pos rfl, lookup_cons_self, lookup_cons_self]
      rfl
    · have hb : (name == k) = false := by
        simp only [beq_eq_false_iff_ne, ne_eq]
        exact fun he => h he.symm
      rw [if_neg h, lookup_cons_ne name k _ _ hb, lookup_cons_ne name k t tl hb, ih]

/-- C8 (tool-result rendering): `to_model_output` returns the raw output
verbatim when `success` is true, and exactly
`Error: {error}\n\nOutput:\n{output}` when `success` is false. -/
theorem to_model_output_contract (r : ToolResult) :
    (r.success = true → r.to_model_output = r.output) ∧
    (∀ e : String, r.success = false → r.error = some e →
      r.to_model_output = "Error: " ++ e ++ "\n\nOutput:\n" ++ r.output) := by
  refine ⟨fun h => ?_, fun e hs he => ?_⟩
  · simp [ToolResult.to_model_output, h]
  · simp [ToolResult.to_model_output, hs, he, optStr]

/-- Witness for C8 at a concrete failed result. -/
theorem to_model_output_contract_witness :
    ({ success := false, output := "out", error := some "bad" } : ToolResult).to_model_output
      = "Error: bad\n\nOutput:\nout" :=
  (to_model_output_contract { success := false, output := "out", error := some "bad" }).2
    "bad" rfl rfl

/-- A tool whose execute raises the fault `boom`. -/
def faultTool : Tool :=
  { name := "boom_tool", description := "", schema := ToolSchema.rawDict,
    execute := fun _ => Except.error "boom" }

/-- A registry holding only `faultTool`, no allow-list. -/
def faultRegistry : ToolRegistry :=
  { tools := [("boom_tool", faultTool)],
    config := { allowed_tools := none, max_turns := 100 } }

/-- C6 (fault isolation, code_bug evidence): at the failing input — a tool
whose execute raises `boom` — `invoke` does return a failed result carrying
the fault's text and does not propagate the fault, but the `metadata` it
builds is the Python *set* `{"tool_name", name}`, not a dict mapping
`tool_name` to the name as `ToolResult.metadata`'s declared type
(`dict[str, Any]`) and every other construction site require. -/
theorem invoke_fault_metadata_is_set :
    faultRegistry.invoke "boom_tool" [] "/tmp" =
      { success := false, output := "", error := some "Internal error: boom",
        metadata := Metadata.set ["tool_name", "boom_tool"] } := by
  rfl

/-- C7 (validation gate): when the arguments violate the tool's schema
(`validate_params` reports at least one message), `invoke` returns a single
error result whose error text aggregates every message joined by `;` and whose
metadata carries the full violation list; every message has the form
`Parameter '<field path>': <reason>`; and the tool's execute is never called
(the outcome is unchanged under an arbitrary replacement of `execute`). -/
theorem validation_gate (r : ToolRegistry) (name : String) (tool : Tool)
    (params : List (String × Json)) (cwd : String)
    (hget : r.get name = some tool)
    (hviol : tool.validate_params params ≠ []) :
    r.invoke name params cwd =
      ToolResult.error_result
        ("Invalid parameters: " ++ String.intercalate ";" (tool.validate_params params)) ""
        (Metadata.dict
          [("tool_name", MetaVal.str name),
           ("validation_errors", MetaVal.strList (tool.validate_params params))]) ∧
    (∀ m ∈ tool.validate_params params, ∃ fld msg,
        m = "Parameter '" ++ fld ++ "': " ++ msg) ∧
    (∀ f, (r.setExecute name f).invoke name params cwd = r.invoke name params cwd) := by
  have hempty : (tool.validate_params params).isEmpty = false := by
    cases hl : tool.validate_params params with
    | nil => exact absurd hl hviol
    | cons a l => simp
  refine ⟨?_, ?_, ?_⟩
  · unfold ToolRegistry.invoke
    rw [hget]
    simp [hempty]
  · intro m hm
    unfold Tool.validate_params at hm
    cases hsch : tool.schema with
    | rawDict => rw [hsch] at hm; simp at hm
    | model faults =>
      rw [hsch] at hm
      simp only [List.mem_map] at hm
      obtain ⟨e, _, he⟩ := hm
      exact ⟨String.intercalate "." e.1, e.2, he.symm⟩
  · intro f
    have hget2 : (r.setExecute name f).get name = some { tool with execute := f } := by
      unfold ToolRegistry.get ToolRegistry.setExecute
      simp only
      rw [lookup_setExecute]
      unfold ToolRegistry.get at hget
      rw [hget]
      rfl
    have hval2 : Tool.validate_params { tool with execute := f } params
        = tool.validate_params params := rfl
    unfold ToolRegistry.invoke
    rw [hget, hget2]
    simp [hval2, hempty]

/-- The declared fields of `WriteFileParams` (`src/tools/builtin/write_file.py`):
`path` and `content` required, `create_directories` optional. -/
def writeFileFields : List FieldSpec :=
  [{ fname := "path", required := true },
   { fname := "content", required := true },
   { fname := "create_directories", required := false }]

/-- A `write_file`-shaped tool with the pydantic parameter model above. -/
def writeFileTool : Tool :=
  { name := "write_file", description := "Write content to a file.",
    schema := ToolSchema.model (requiredFieldFaults writeFileFields),
    execute := fun _ => Except.ok (ToolResult.success_result "written" (Metadata.dict [])) }

/-- A registry holding only `writeFileTool`. -/
def writeRegistry : ToolRegistry :=
  { tools := [("write_file", writeFileTool)],
    config := { allowed_tools := none, max_turns := 100 } }

/-- Witness for C7: `invoke("write_file", {})` aggregates both
missing-required-field messages and skips execution. -/
theorem validation_gate_witness :
    writeRegistry.invoke "write_file" [] "/" =
      ToolResult.error_result
        ("Invalid parameters: Parameter 'path': Field required;Parameter 'content': Field required")
        ""
        (Metadata.dict
          [("tool_name", MetaVal.str "write_file"),
           ("validation_errors",
            MetaVal.strList
              ["Parameter 'path': Field required", "Parameter 'content': Field required"])]) := by
  have h := (validation_gate writeRegistry "write_file" writeFileTool [] "/" rfl
    (by decide)).1
  exact h

/-- A tool named `t` that executes successfully. -/
def plainTool : Tool :=
  { name := "t", description := "", schema := ToolSchema.rawDict,
    execute := fun _ => Except.ok (ToolResult.success_result "ran" (Metadata.dict [])) }

/-- A registry where `t` is registered but absent from the allow-list. -/
def unlistedRegistry : ToolRegistry :=
  { tools := [("t", plainTool)],
    config := { allowed_tools := some ["other"], max_turns := 100 } }

/-- C2 counterexample: with tool `t` registered and the allow-list
`["other"]`, `t` is omitted from the advertised tools, yet `invoke "t"`
executes the tool and returns its success result instead of the unknown-tool
error the claim demands. -/
theorem allowlist_invoke_counterexample :
    unlistedRegistry.get_tools = [] ∧
    unlistedRegistry.invoke "t" [] "/" = ToolResult.success_result "ran" (Metadata.dict []) := by
  exact ⟨rfl, rfl⟩

/-- C2 amended: a truthy allow-list restricts which tools are advertised
(`get_tools` / `get_schemas` only expose allow-listed names), but `invoke`
does not consult the allow-list at all — its outcome is independent of
`config.allowed_tools`, so any registered tool remains invocable. -/
theorem allowlist_filtering_amended (r : ToolRegistry) (allowed : List String)
    (hcfg : r.config.allowed_tools = some allowed) (hne : allowed ≠ []) :
    (∀ t ∈ r.get_tools, t.name ∈ allowed) ∧
    (∀ s ∈ r.get_schemas, s.name ∈ allowed) ∧
    (∀ (name : String) (params : List (String × Json)) (cwd : String)
       (al2 : Option (List String)),
      ToolRegistry.invoke
          { r with config := { r.config with allowed_tools := al2 } } name params cwd
        = r.invoke name params cwd) := by
  have hempty : allowed.isEmpty = false := by
    cases allowed with
    | nil => exact absurd rfl hne
    | cons a l => simp
  have hfilter : r.get_tools
      = (r.tools.map Prod.snd).filter (fun t => allowed.contains t.name) := by
    unfold ToolRegistry.get_tools
    rw [hcfg]
    simp [hempty]
  refine ⟨?_, ?_, ?_⟩
  · intro t ht
    rw [hfilter] at ht
    have := (List.mem_filter.mp ht).2
    simpa using this
  · intro s hs
    unfold ToolRegistry.get_schemas at hs
    simp only [List.mem_map] at hs
    obtain ⟨t, ht, hts⟩ := hs
    rw [hfilter] at ht
    have := (List.mem_filter.mp ht).2
    rw [← hts]
    simpa [Tool.to_openai_schema] using this
  · intro name params cwd al2
    rfl

/-- Witness for C2's amended claim: invoking `t` in `unlistedRegistry` gives
the same result whether the allow-list is `["other"]` or absent. -/
theorem allowlist_filtering_amended_witness :
    ToolRegistry.invoke
        { unlistedRegistry with
          config := { unlistedRegistry.config with allowed_tools := none } } "t" [] "/"
      = unlistedRegistry.invoke "t" [] "/" :=
  (allowlist_filtering_amended unlistedRegistry ["other"] rfl (by decide)).2.2
    "t" [] "/" none

/-! ### JSON text parsing

`parse_tool_call_arguments` lives in `client/response.py`, which is not under
`src/`; the spec pins its contract: the accumulated argument buffer is parsed
as structured arguments, and a parse failure degrades to the empty mapping. -/

/-- Skip JSON whitespace. -/
def skipWs : List Char → List Char
  | [] => []
  | c :: cs => if c = ' ' || c = '\n' || c = '\t' || c = '\r' then skipWs cs else c :: cs

/-- Parse the body of a JSON string after the opening quote, handling the
common escapes; returns the content and the text after the closing quote. -/
def parseStringBody : Nat → List Char → Option (String × List Char)
  | 0, _ => none
  | _ + 1, [] => none
  | fuel + 1, c :: cs =>
    if c = '"' then some ("", cs)
    else if c = '\\' then
      match cs with
      | [] => none
      | e :: cs2 =>
        let dec : Option Char :=
          if e = '"' then some '"'
          else if e = '\\' then some '\\'
          else if e = '/' then some '/'
          else if e = 'n' then some '\n'
          else if e = 't' then some '\t'
          else if e = 'r' then some '\r'
          else none
        match dec with
        | none => none
        | some d =>
            (parseStringBody fuel cs2).map (fun p => (String.singleton d ++ p.1, p.2))
    else (parseStringBody fuel cs).map (fun p => (String.singleton c ++ p.1, p.2))

/-- Decimal digits to a natural number. -/
def digitsToNat (ds : List Char) : Nat :=
  ds.foldl (fun acc c => acc * 10 + (c.toNat - '0'.toNat)) 0

/-- Parse a JSON integer token (optional minus sign, one or more digits). -/
def parseIntToken : List Char → Option (Int × List Char)
  | '-' :: cs =>
      let p := cs.span Char.isDigit
      if p.1.isEmpty then none else some (-(digitsToNat p.1 : Int), p.2)
  | cs =>
      let p := cs.span Char.isDigit
      if p.1.isEmpty then none else some ((digitsToNat p.1 : Int), p.2)

mutual

/-- Fueled recursive-descent parse of one JSON value (objects, arrays,
strings, integers, booleans, null — the grammar fragment tool arguments
use; fractional numbers are treated as a parse failure). -/
def parseValue : Nat → List Char → Option (Json × List Char)
  | 0, _ => none
  | fuel + 1, input =>
    match skipWs input with
    | [] => none
    | c :: cs =>
      if c = '\x7b' then
        match skipWs cs with
        | '\x7d' :: rest => some (Json.obj [], rest)
        | _ => (parseMembers fuel cs).map (fun p => (Json.obj p.1, p.2))
      else if c = '[' then
        match skipWs cs with
        | ']' :: rest => some (Json.arr [], rest)
        | _ => (parseItems fuel cs).map (fun p => (Json.arr p.1, p.2))
      else if c = '"' then
        (parseStringBody fuel cs).map (fun p => (Json.str p.1, p.2))
      else
        match c :: cs with
        | 't' :: 'r' :: 'u' :: 'e' :: rest => some (Json.bool true, rest)
        | 'f' :: 'a' :: 'l' :: 's' :: 'e' :: rest => some (Json.bool false, rest)
        | 'n' :: 'u' :: 'l' :: 'l' :: rest => some (Json.null, rest)
        | other => (parseIntToken other).map (fun p => (Json.num p.1, p.2))

/-- Parse the members of a JSON object after the opening brace (at least one
`"key": value` pair), through the closing brace. -/
def parseMembers : Nat → List Char → Option (List (String × Json) × List Char)
  | 0, _ => none
  | fuel + 1, input =>
    match skipWs input with
    | '"' :: cs =>
      match parseStringBody fuel cs with
      | none => none
      | some (key, rest1) =>
        match skipWs rest1 with
        | ':' :: rest2 =>
          match parseValue fuel rest2 with
          | none => none
          | some (v, rest3) =>
            match skipWs rest3 with
            | ',' :: rest4 =>
                (parseMembers fuel rest4).map (fun p => ((key, v) :: p.1, p.2))
            | '\x7d' :: rest4 => some ([(key, v)], rest4)
            | _ => none
        | _ => none
    | _ => none

/-- Parse the items of a JSON array after the opening bracket (at least one
value), through the closing bracket. -/
def parseItems : Nat → List Char → Option (List Json × List Char)
  | 0, _ => none
  | fuel + 1, input =>
    match parseValue fuel input with
    | none => none
    | some (v, rest) =>
      match skipWs rest with
      | ',' :: rest2 => (parseItems fuel rest2).map (fun p => (v :: p.1, p.2))
      | ']' :: rest2 => some ([v], rest2)
      | _ => none

end

/-- Modelled from the spec: `parse_tool_call_arguments` of
`client/response.py` (absent from `src/`): parse the accumulated argument
text as a JSON object into the structured key-to-value mapping; a parse
failure (or a non-object result) yields the empty mapping rather than failing
the turn. -/
def parse_tool_call_arguments (s : String) : List (String × Json) :=
  match parseValue (s.length + 2) s.toList with
  | some (Json.obj fields, rest) => if (skipWs rest).isEmpty then fields else []
  | _ => []

/-! ### Stream events (`client/response.py`, shapes pinned by the spec's
StreamEvent variant list and their construction sites in
`src/client/llm_client.py`) -/

/-- `TokenUsage`. -/
structure TokenUsage where
  prompt_tokens : Nat
  completion_tokens : Nat
  total_tokens : Nat
  cached_tokens : Nat
  deriving Repr, DecidableEq

/-- `ToolCallDelta`: incremental tool-call data carried by start/delta
events. -/
structure ToolCallDelta where
  call_id : String
  name : String
  arguments_delta : Option String := none
  deriving Repr, DecidableEq

/-- `ToolCall`: a completed tool call with parsed arguments. -/
structure ToolCall where
  call_id : String
  name : String
  arguments : List (String × Json)

/-- `StreamEventType` (the source misspells the delta tag as
`TOOL_CALL__DETAILS_DELTA`). -/
inductive StreamEventType where
  | textDelta : StreamEventType
  | toolCallDetailsStart : StreamEventType
  | toolCallDetailsDelta : StreamEventType
  | toolCallDetailsComplete : StreamEventType
  | messageComplete : StreamEventType
  | error : StreamEventType
  deriving Repr, DecidableEq

/-- `StreamEvent`: a tagged record with optional payload fields, as the
source dataclass. -/
structure StreamEvent where
  type : StreamEventType
  text_delta : Option String := none
  tool_call_delta : Option ToolCallDelta := none
  tool_call : Option ToolCall := none
  finish_reason : Option String := none
  usage : Option TokenUsage := none
  err : Option String := none

/-- The `TEXT_DELTA` event as constructed at `llm_client.py` line 131. -/
def evTextDelta (s : String) : StreamEvent :=
  { type := StreamEventType.textDelta, text_delta := some s }

/-- The `TOOL_CALL_DETAILS_START` event (line 149). -/
def evToolCallStart (cid nm : String) : StreamEvent :=
  { type := StreamEventType.toolCallDetailsStart,
    tool_call_delta := some { call_id := cid, name := nm } }

/-- The `TOOL_CALL__DETAILS_DELTA` event (line 158), carrying only the chunk. -/
def evToolCallDelta (cid nm frag : String) : StreamEvent :=
  { type := StreamEventType.toolCallDetailsDelta,
    tool_call_delta := some { call_id := cid, name := nm, arguments_delta := some frag } }

/-- The `TOOL_CALL_DETAILS_COMPLETE` event (line 168). -/
def evToolCallComplete (cid nm : String) (args : List (String × Json)) : StreamEvent :=
  { type := StreamEventType.toolCallDetailsComplete,
    tool_call := some { call_id := cid, name := nm, arguments := args } }

/-- The terminal `MESSAGE_COMPLETE` event of the streaming path (line 177). -/
def evMessageComplete (fr : Option String) (u : Option TokenUsage) : StreamEvent :=
  { type := StreamEventType.messageComplete, finish_reason := fr, usage := u }

/-- An `ERROR` event. -/
def evError (msg : String) : StreamEvent :=
  { type := StreamEventType.error, err := some msg }

/-! ### Provider wire frames (LLM endpoint wire contract, §6 of the spec) -/

/-- The `function` part of an indexed tool-call fragment. -/
structure FragFunction where
  name : Option String := none
  arguments : Option String := none

/-- One indexed tool-call fragment of a streamed frame. -/
structure ToolCallFragment where
  index : Nat
  id : Option String := none
  function : Option FragFunction := none

/-- The delta of a streamed choice. -/
structure Delta where
  content : Option String := none
  tool_calls : Option (List ToolCallFragment) := none

/-- One choice of a streamed frame. -/
structure Choice where
  delta : Delta
  finish_reason : Option String := none

/-- One streamed frame (chunk). -/
structure Chunk where
  usage : Option TokenUsage := none
  choices : List Choice := []

/-! ### The streaming decoder (`LLMClient._stream_response`) -/

/-- The per-index accumulator `{'id', 'name', 'arguments'}`. -/
structure TCState where
  id : String
  name : String
  arguments : String
  deriving Repr, DecidableEq

/-- Decoder state across chunks: latest usage, latest finish reason, and the
insertion-ordered index-to-accumulator dict. -/
structure DecState where
  usage : Option TokenUsage := none
  finish_reason : Option String := none
  tool_calls : List (Nat × TCState) := []

/-- Process one tool-call fragment (`llm_client.py` lines 137-165).  The
source nests the whole name/arguments handling inside the
`if idx not in tool_calls:` branch, so a fragment for an already-seen index
contributes nothing: no buffer append and no event. -/
def processToolCallFragment (tcs : List (Nat × TCState)) (f : ToolCallFragment) :
    List (Nat × TCState) × List StreamEvent :=
  if (tcs.lookup f.index).isSome then (tcs, [])
  else
    match f.function with
    | none => (tcs ++ [(f.index, { id := f.id.getD "", name := "", arguments := "" })], [])
    | some fn =>
      let st1 : TCState :=
        { id := f.id.getD "",
          name := if truthyStr fn.name then fn.name.getD "" else "",
          arguments := "" }
      let st2 : TCState :=
        if truthyStr fn.arguments then
          { st1 with arguments := st1.arguments ++ fn.arguments.getD "" }
        else st1
      (tcs ++ [(f.index, st2)],
        (if truthyStr fn.name then [evToolCallStart st1.id st1.name] else [])
          ++ (if truthyStr fn.arguments then
                [evToolCallDelta st1.id st1.name (fn.arguments.getD "")]
              else []))

/-- Process a chunk's tool-call fragments in order. -/
def processFragments : List (Nat × TCState) → List ToolCallFragment →
    List (Nat × TCState) × List StreamEvent
  | tcs, [] => (tcs, [])
  | tcs, f :: fs =>
    let r1 := processToolCallFragment tcs f
    let r2 := processFragments r1.1 fs
    (r2.1, r1.2 ++ r2.2)

/-- Process one chunk (`llm_client.py` lines 112-165): update usage, skip
choiceless chunks, record a truthy finish reason, forward truthy text content
as a `TEXT_DELTA`, then process the tool-call fragments. -/
def processChunk (s : DecState) (c : Chunk) : DecState × List StreamEvent :=
  let s0 : DecState := { s with usage := match c.usage with | some u => some u | none => s.usage }
  match c.choices with
  | [] => (s0, [])
  | choice :: _ =>
    let s1 : DecState :=
      if truthyStr choice.finish_reason then { s0 with finish_reason := choice.finish_reason }
      else s0
    let r := processFragments s1.tool_calls (choice.delta.tool_calls.getD [])
    ({ s1 with tool_calls := r.1 },
      (if truthyStr choice.delta.content then [evTextDelta (choice.delta.content.getD "")]
       else [])
        ++ r.2)

/-- Process a list of chunks from a decoder state. -/
def processChunks : DecState → List Chunk → DecState × List StreamEvent
  | s, [] => (s, [])
  | s, c :: cs =>
    let r1 := processChunk s c
    let r2 := processChunks r1.1 cs
    (r2.1, r1.2 ++ r2.2)

/-- The events the chunk loop yields before stream end (the prefix of
`_stream_response` that runs even when the stream later faults). -/
def chunkEvents (cs : List Chunk) : List StreamEvent :=
  (processChunks {} cs).2

/-- `LLMClient._stream_response` over a fully delivered stream: the chunk
loop's events, then one `TOOL_CALL_DETAILS_COMPLETE` per observed index in
insertion order with the buffer parsed, then the terminal
`MESSAGE_COMPLETE`. -/
def stream_response (cs : List Chunk) : List StreamEvent :=
  let r := processChunks {} cs
  r.2
    ++ r.1.tool_calls.map
        (fun itc =>
          evToolCallComplete itc.2.id itc.2.name (parse_tool_call_arguments itc.2.arguments))
    ++ [evMessageComplete r.1.finish_reason r.1.usage]

/-! ### The non-streaming path (`LLMClient._non_stream_response`) -/

/-- A non-streamed provider tool call (`message.tool_calls[i]`). -/
structure NSToolCall where
  id : String
  fname : String
  farguments : String

/-- A non-streamed provider message. -/
structure NSMessage where
  content : Option String := none
  tool_calls : Option (List NSToolCall) := none

/-- The first choice of a non-streamed response. -/
structure NSChoice where
  message : NSMessage
  finish_reason : Option String := none

/-- A non-streamed provider response (`response.choices[0]` plus usage). -/
structure NonStreamResponse where
  choice : NSChoice
  usage : Option TokenUsage := none

/-- The local `tool_calls` list `_non_stream_response` builds (lines 192-199)
and then drops. -/
def nonStreamToolCalls (r : NonStreamResponse) : List ToolCall :=
  match r.choice.message.tool_calls with
  | none => []
  | some tcs =>
      tcs.map
        (fun tc =>
          { call_id := tc.id, name := tc.fname,
            arguments := parse_tool_call_arguments tc.farguments })

/-- `LLMClient._non_stream_response`: one `MESSAGE_COMPLETE` event carrying
the text (when truthy), finish reason and usage — and no tool-call field. -/
def non_stream_response (r : NonStreamResponse) : StreamEvent :=
  { type := StreamEventType.messageComplete,
    text_delta :=
      if truthyStr r.choice.message.content then some (r.choice.message.content.getD "")
      else none,
    finish_reason := r.choice.finish_reason,
    usage := r.usage }

/-! ### The retry loop (`LLMClient.chat_completion`) -/

/-- How one attempt against the provider ends: the stream drains completely,
or it faults with one of the three classified provider failures (the
exception's text, and for a rate limit the optional `X-RateLimit-Reset`
header value). -/
inductive Terminator where
  | done : Terminator
  | rateLimit (msg : String) (resetHeader : Option String) : Terminator
  | connectionError (msg : String) : Terminator
  | apiError (msg : String) : Terminator

/-- One attempt: the frames delivered before the outcome (streaming), the
whole response (non-streaming), and the outcome. -/
structure Attempt where
  chunks : List Chunk
  response : NonStreamResponse
  outcome : Terminator

/-- Python `int(text)` on the header value: an optional minus sign followed
by one or more decimal digits; anything else raises (`None` here). -/
def strToInt? (s : String) : Option Int :=
  match s.toList with
  | [] => none
  | '-' :: ds =>
      if !ds.isEmpty && ds.all Char.isDigit then some (-(digitsToNat ds : Int)) else none
  | ds => if ds.all Char.isDigit then some ((digitsToNat ds : Int)) else none

/-- The wait before a rate-limit retry after a given 0-based attempt
(lines 67-78): `2^attempt` by default; when a truthy reset header parses as
an integer, epoch-milliseconds are converted to seconds and the wait is
`max(1, reset_epoch - now)`; a non-integer header keeps the default. -/
def rateLimitWait (attempt : Nat) (resetHeader : Option String) (now : ℚ) : ℚ :=
  match resetHeader with
  | none => (2 : ℚ) ^ attempt
  | some h =>
      if h.isEmpty then (2 : ℚ) ^ attempt
      else
        match strToInt? h with
        | some n => max 1 ((n : ℚ) / 1000 - now)
        | none => (2 : ℚ) ^ attempt

/-- The events an attempt yields before its outcome: the chunk loop's events
when streaming, nothing when not (the single non-streamed event is produced
only after `create` returns without fault). -/
def attemptPartialEvents (stream : Bool) (a : Attempt) : List StreamEvent :=
  if stream then chunkEvents a.chunks else []

/-- The retry loop of `chat_completion` (lines 55-104), from a given 0-based
attempt with the given number of retries remaining.  Returns the yielded
events and the list of backoff waits slept, in order.  A successful attempt
ends the sequence after the stream's events; a rate-limit or connection fault
sleeps and retries while retries remain, else yields one `ERROR`; any other
provider error yields one `ERROR` immediately. -/
def chatGo (stream : Bool) (sched : Nat → Attempt) (now : ℚ) :
    Nat → Nat → List StreamEvent × List ℚ
  | remaining, attempt =>
    let a := sched attempt
    match a.outcome with
    | Terminator.done =>
        (if stream then stream_response a.chunks else [non_stream_response a.response], [])
    | Terminator.rateLimit msg hdr =>
        match remaining with
        | Nat.succ rem =>
            let r := chatGo stream sched now rem (attempt + 1)
            (attemptPartialEvents stream a ++ r.1, rateLimitWait attempt hdr now :: r.2)
        | 0 =>
            (attemptPartialEvents stream a ++ [evError ("Rate limit exceeded: " ++ msg)], [])
    | Terminator.connectionError msg =>
        match remaining with
        | Nat.succ rem =>
            let r := chatGo stream sched now rem (attempt + 1)
            (attemptPartialEvents stream a ++ r.1, ((2 : ℚ) ^ attempt) :: r.2)
        | 0 =>
            (attemptPartialEvents stream a ++ [evError ("Connection error: " ++ msg)], [])
    | Terminator.apiError msg =>
        (attemptPartialEvents stream a ++ [evError ("API error: " ++ msg)], [])

/-- `LLMClient.chat_completion`: the retry loop over
`range(self._max_retries + 1)` starting at attempt 0. -/
def chat_completion (stream : Bool) (sched : Nat → Attempt) (now : ℚ) (maxRetries : Nat) :
    List StreamEvent × List ℚ :=
  chatGo stream sched now maxRetries 0

/-- `LLMClient._max_retries`. -/
def defaultMaxRetries : Nat := 3

/-! ### Decoder theorems -/

/-- First fragment of the C1 failing input: index 0, call id `call_1`, name
`f`, first argument chunk. -/
def c1frag1 : ToolCallFragment :=
  { index := 0, id := some "call_1",
    function := some { name := some "f", arguments := some "\x7b\"a\": 1" } }

/-- Second fragment of the C1 failing input: index 0 again, carrying the
closing argument chunk. -/
def c1frag2 : ToolCallFragment :=
  { index := 0, function := some { arguments := some "\x7d" } }

/-- A frame carrying one tool-call fragment and nothing else. -/
def fragChunk (f : ToolCallFragment) : Chunk :=
  { choices := [{ delta := { tool_calls := some [f] } }] }

/-- C1 (fragment reassembly, code_bug evidence): the argument string
`{"a": 1}` delivered as the chunks `{"a": 1` and `}` at the same index.  The
decoder emits no `ToolCallDelta` for the second chunk and never appends it to
the buffer — the name/arguments handling is nested inside the
`idx not in tool_calls` branch — so the final `ToolCallComplete` carries the
empty mapping, while parsing the unsplit string directly yields `{a: 1}`. -/
theorem fragment_reassembly_dropped :
    stream_response [fragChunk c1frag1, fragChunk c1frag2]
      = [evToolCallStart "call_1" "f",
         evToolCallDelta "call_1" "f" "\x7b\"a\": 1",
         evToolCallComplete "call_1" "f" [],
         evMessageComplete none none] ∧
    parse_tool_call_arguments ("\x7b\"a\": 1" ++ "\x7d") = [("a", Json.num 1)] :=
  ⟨rfl, rfl⟩

/-- Replace the provider message's tool calls in a non-streamed response. -/
def withToolCalls (r : NonStreamResponse) (tcs : Option (List NSToolCall)) :
    NonStreamResponse :=
  { r with choice := { r.choice with message := { r.choice.message with tool_calls := tcs } } }

/-- C10: the non-streaming path returns one `MESSAGE_COMPLETE` event whose
tool-call fields are unset, and the returned event does not depend on the
provider message's tool calls at all — the caller never observes a tool call
through this path. -/
theorem non_stream_omits_tool_calls (r : NonStreamResponse) :
    (non_stream_response r).type = StreamEventType.messageComplete ∧
    (non_stream_response r).tool_call = none ∧
    (non_stream_response r).tool_call_delta = none ∧
    (∀ tcs, non_stream_response (withToolCalls r tcs) = non_stream_response r) :=
  ⟨rfl, rfl, rfl, fun _ => rfl⟩

/-- An event is terminal when it is a `MESSAGE_COMPLETE` or an `ERROR`. -/
def isTerminal (e : StreamEvent) : Bool :=
  e.type == StreamEventType.messageComplete || e.type == StreamEventType.error

/-- Membership in a conditional singleton list. -/
theorem mem_if_singleton {α : Type} (c : Bool) (x e : α)
    (he : e ∈ if c then [x] else []) : e = x := by
  cases c with
  | true => simpa using he
  | false => simp at he

/-- Fragment processing yields only start/delta events, never a terminal. -/
theorem processToolCallFragment_not_terminal (tcs : List (Nat × TCState))
    (f : ToolCallFragment) :
    ∀ e ∈ (processToolCallFragment tcs f).2, isTerminal e = false := by
  intro e he
  unfold processToolCallFragment at he
  split at he
  · simp at he
  · split at he
    · simp at he
    · simp only [List.mem_append] at he
      rcases he with h | h
      · rw [mem_if_singleton _ _ _ h]; rfl
      · rw [mem_if_singleton _ _ _ h]; rfl

/-- The events of a fragment list are never terminal. -/
theorem processFragments_not_terminal (fs : List ToolCallFragment) :
    ∀ tcs, ∀ e ∈ (processFragments tcs fs).2, isTerminal e = false := by
  induction fs with
  | nil => intro tcs e he; simp [processFragments] at he
  | cons f fs ih =>
    intro tcs e he
    unfold processFragments at he
    simp only [List.mem_append] at he
    rcases he with h | h
    · exact processToolCallFragment_not_terminal tcs f e h
    · exact ih _ e h

/-- The events of one chunk are either empty or a conditional text delta
followed by fragment events. -/
theorem processChunk_events (s : DecState) (c : Chunk) :
    (processChunk s c).2 = [] ∨
    ∃ (b : Bool) (txt : String) (tcs : List (Nat × TCState)) (fs : List ToolCallFragment),
      (processChunk s c).2
        = (if b then [evTextDelta txt] else []) ++ (processFragments tcs fs).2 := by
  obtain ⟨cu, cch⟩ := c
  cases cch with
  | nil => left; cases cu <;> rfl
  | cons choice tail =>
    right
    cases cu with
    | none => exact ⟨_, _, _, _, rfl⟩
    | some u => exact ⟨_, _, _, _, rfl⟩

/-- The events of one chunk are never terminal. -/
theorem processChunk_not_terminal (s : DecState) (c : Chunk) :
    ∀ e ∈ (processChunk s c).2, isTerminal e = false := by
  intro e he
  rcases processChunk_events s c with h | ⟨b, txt, tcs, fs, h⟩
  · rw [h] at he; simp at he
  · rw [h] at he
    simp only [List.mem_append] at he
    rcases he with h1 | h1
    · rw [mem_if_singleton _ _ _ h1]; rfl
    · exact processFragments_not_terminal fs tcs e h1

/-- The chunk loop yields no terminal event. -/
theorem processChunks_not_terminal (cs : List Chunk) :
    ∀ s, ∀ e ∈ (processChunks s cs).2, isTerminal e = false := by
  induction cs with
  | nil => intro s e he; simp [processChunks] at he
  | cons c cs ih =>
    intro s e he
    unfold processChunks at he
    simp only [List.mem_append] at he
    rcases he with h | h
    · exact processChunk_not_terminal s c e h
    · exact ih _ e h

/-- A fully drained stream yields exactly one terminal event, the final
`MESSAGE_COMPLETE`. -/
theorem stream_response_terminal (cs : List Chunk) :
    ∃ pre fr u, stream_response cs = pre ++ [evMessageComplete fr u] ∧
      ∀ e ∈ pre, isTerminal e = false := by
  refine ⟨(processChunks {} cs).2
      ++ (processChunks {} cs).1.tool_calls.map
          (fun itc =>
            evToolCallComplete itc.2.id itc.2.name
              (parse_tool_call_arguments itc.2.arguments)),
    (processChunks {} cs).1.finish_reason, (processChunks {} cs).1.usage, ?_, ?_⟩
  · unfold stream_response
    simp
  · intro e he
    simp only [List.mem_append] at he
    rcases he with h | h
    · exact processChunks_not_terminal cs {} e h
    · simp only [List.mem_map] at h
      obtain ⟨itc, _, hev⟩ := h
      rw [← hev]; rfl

/-- C9 (terminal-event uniqueness): every event sequence produced by one
`chat_completion` call — for any schedule of provider outcomes, streaming or
not, any clock and retry budget — ends in exactly one terminal event
(`MESSAGE_COMPLETE` or `ERROR`), with every earlier event non-terminal and
nothing after it. -/
theorem terminal_event_uniqueness (stream : Bool) (sched : Nat → Attempt) (now : ℚ)
    (maxRetries : Nat) :
    ∃ pre last, (chat_completion stream sched now maxRetries).1 = pre ++ [last] ∧
      isTerminal last = true ∧ ∀ e ∈ pre, isTerminal e = false := by
  suffices h : ∀ remaining attempt,
      ∃ pre last, (chatGo stream sched now remaining attempt).1 = pre ++ [last] ∧
        isTerminal last = true ∧ ∀ e ∈ pre, isTerminal e = false by
    exact h maxRetries 0
  intro remaining
  induction remaining with
  | zero =>
    intro attempt
    unfold chatGo
    cases houtcome : (sched attempt).outcome with
    | done =>
      cases stream with
      | true =>
        obtain ⟨pre, fr, u, heq, hpre⟩ := stream_response_terminal (sched attempt).chunks
        exact ⟨pre, evMessageComplete fr u, by simp [houtcome, heq], rfl, hpre⟩
      | false =>
        exact ⟨[], non_stream_response (sched attempt).response, by simp [houtcome], rfl,
          by simp⟩
    | rateLimit msg hdr =>
      refine ⟨attemptPartialEvents stream (sched attempt),
        evError ("Rate limit exceeded: " ++ msg), by simp [houtcome], rfl, ?_⟩
      intro e he
      unfold attemptPartialEvents at he
      cases stream with
      | true => exact processChunks_not_terminal _ _ e (by simpa [chunkEvents] using he)
      | false => simp at he
    | connectionError msg =>
      refine ⟨attemptPartialEvents stream (sched attempt),
        evError ("Connection error: " ++ msg), by simp [houtcome], rfl, ?_⟩
      intro e he
      unfold attemptPartialEvents at he
      cases stream with
      | true => exact processChunks_not_terminal _ _ e (by simpa [chunkEvents] using he)
      | false => simp at he
    | apiError msg =>
      refine ⟨attemptPartialEvents stream (sched attempt),
        evError ("API error: " ++ msg), by simp [houtcome], rfl, ?_⟩
      intro e he
      unfold attemptPartialEvents at he
      cases stream with
      | true => exact processChunks_not_terminal _ _ e (by simpa [chunkEvents] using he)
      | false => simp at he
  | succ rem ih =>
    intro attempt
    unfold chatGo
    cases houtcome : (sched attempt).outcome with
    | done =>
      cases stream with
      | true =>
        obtain ⟨pre, fr, u, heq, hpre⟩ := stream_response_terminal (sched attempt).chunks
        exact ⟨pre, evMessageComplete fr u, by simp [houtcome, heq], rfl, hpre⟩
      | false =>
        exact ⟨[], non_stream_response (sched attempt).response, by simp [houtcome], rfl,
          by simp⟩
    | rateLimit msg hdr =>
      obtain ⟨pre, last, heq, hlast, hpre⟩ := ih (attempt + 1)
      refine ⟨attemptPartialEvents stream (sched attempt) ++ pre, last,
        by simp [houtcome, heq], hlast, ?_⟩
      intro e he
      simp only [List.mem_append] at he
      rcases he with h | h
      · unfold attemptPartialEvents at h
        cases stream with
        | true => exact processChunks_not_terminal _ _ e (by simpa [chunkEvents] using h)
        | false => simp at h
      · exact hpre e h
    | connectionError msg =>
      obtain ⟨pre, last, heq, hlast, hpre⟩ := ih (attempt + 1)
      refine ⟨attemptPartialEvents stream (sched attempt) ++ pre, last,
        by simp [houtcome, heq], hlast, ?_⟩
      intro e he
      simp only [List.mem_append] at he
      rcases he with h | h
      · unfold attemptPartialEvents at h
        cases stream with
        | true => exact processChunks_not_terminal _ _ e (by simpa [chunkEvents] using h)
        | false => simp at h
      · exact hpre e h
    | apiError msg =>
      refine ⟨attemptPartialEvents stream (sched attempt),
        evError ("API error: " ++ msg), by simp [houtcome], rfl, ?_⟩
      intro e he
      unfold attemptPartialEvents at he
      cases stream with
      | true => exact processChunks_not_terminal _ _ e (by simpa [chunkEvents] using he)
      | false => simp at he

/-- The retry loop under a schedule whose every attempt hits a rate limit:
attempts `a, a+1, ..., a+remaining` each run, one backoff wait per retried
attempt, finishing in a single rate-limit `ERROR` for the last attempt. -/
theorem chatGo_rateLimit_all (stream : Bool) (sched : Nat → Attempt) (msg : Nat → String)
    (hd : Nat → Option String) (now : ℚ)
    (hsched : ∀ k, (sched k).outcome = Terminator.rateLimit (msg k) (hd k)) :
    ∀ remaining attempt,
      (chatGo stream sched now remaining attempt).2
          = (List.range' attempt remaining).map (fun k => rateLimitWait k (hd k) now)
      ∧ (chatGo stream sched now remaining attempt).1
          = ((List.range' attempt (remaining + 1)).map
              (fun k => attemptPartialEvents stream (sched k))).flatten
            ++ [evError ("Rate limit exceeded: " ++ msg (attempt + remaining))] := by
  intro remaining
  induction remaining with
  | zero =>
    intro attempt
    unfold chatGo
    simp [hsched attempt, List.range'_succ]
  | succ rem ih =>
    intro attempt
    unfold chatGo
    simp only [hsched attempt]
    obtain ⟨ih2, ih1⟩ := ih (attempt + 1)
    constructor
    · rw [ih2, List.range'_succ, List.map_cons]
    · rw [ih1, show rem + 1 + 1 = (rem + 1) + 1 from rfl, List.range'_succ attempt (rem + 1),
        List.map_cons, List.flatten_cons, List.append_assoc,
        show attempt + (rem + 1) = attempt + 1 + rem from by omega]

/-- C5 (retry backoff): under any schedule whose attempts all fail with a
rate limit and carry no reset header, the waits slept before each retry are
exactly `2^0, 2^1, ..., 2^(maxRetries-1)` (the wait after attempt `k` is
`2^k`), the call retries until attempts are exhausted and then emits exactly
one `ERROR`; and under a schedule whose attempts carry a truthy reset header
parsing to epoch-milliseconds `n`, every wait is
`max(1, n/1000 - now)`. -/
theorem retry_backoff (sched schedH : Nat → Attempt) (msg msgH : Nat → String) (now : ℚ)
    (maxRetries : Nat) (stream : Bool) (hdr : String) (n : Int)
    (hsched : ∀ k, (sched k).outcome = Terminator.rateLimit (msg k) none)
    (hschedH : ∀ k, (schedH k).outcome = Terminator.rateLimit (msgH k) (some hdr))
    (hhdr : strToInt? hdr = some n) (hne : hdr.isEmpty = false) :
    (chat_completion stream sched now maxRetries).2
        = (List.range maxRetries).map (fun k => (2 : ℚ) ^ k)
    ∧ (chat_completion stream sched now maxRetries).1
        = ((List.range (maxRetries + 1)).map
            (fun k => attemptPartialEvents stream (sched k))).flatten
          ++ [evError ("Rate limit exceeded: " ++ msg maxRetries)]
    ∧ (chat_completion stream schedH now maxRetries).2
        = (List.range maxRetries).map (fun _ => max 1 ((n : ℚ) / 1000 - now)) := by
  obtain ⟨h2, h1⟩ :=
    chatGo_rateLimit_all stream sched msg (fun _ => none) now hsched maxRetries 0
  obtain ⟨g2, _⟩ :=
    chatGo_rateLimit_all stream schedH msgH (fun _ => some hdr) now hschedH maxRetries 0
  refine ⟨?_, ?_, ?_⟩
  · rw [chat_completion, h2, List.range_eq_range']
    exact List.map_congr_left fun i _ => by simp [rateLimitWait]
  · rw [chat_completion, h1, List.range_eq_range']
    simp
  · rw [chat_completion, g2, List.range_eq_range']
    exact List.map_congr_left fun i _ => by simp [rateLimitWait, hne, hhdr]

/-- A fixed non-streamed response for concrete schedules. -/
def dummyResponse : NonStreamResponse :=
  { choice := { message := {} } }

/-- A schedule whose every attempt hits a rate limit with no reset header and
delivers no frames. -/
def c5sched : Nat → Attempt :=
  fun _ => { chunks := [], response := dummyResponse,
             outcome := Terminator.rateLimit "rl" none }

/-- A schedule whose every attempt hits a rate limit carrying the reset
header `5000` (epoch-milliseconds). -/
def c5schedH : Nat → Attempt :=
  fun _ => { chunks := [], response := dummyResponse,
             outcome := Terminator.rateLimit "rl" (some "5000") }

/-- Witness for C5 at `_max_retries = 3`, `now = 2`: the no-header waits are
`1, 2, 4`, and with the reset header `5000` every wait is
`max(1, 5000/1000 - 2) = 3`. -/
theorem retry_backoff_witness :
    (chat_completion true c5sched 2 defaultMaxRetries).2 = [1, 2, 4]
    ∧ (chat_completion true c5schedH 2 defaultMaxRetries).2 = [3, 3, 3] := by
  have h := retry_backoff c5sched c5schedH (fun _ => "rl") (fun _ => "rl") 2
    defaultMaxRetries true "5000" 5000 (fun _ => rfl) (fun _ => rfl) (by decide) (by decide)
  obtain ⟨h1, -, h3⟩ := h
  constructor
  · rw [h1]
    norm_num [defaultMaxRetries, List.range_succ]
  · rw [h3]
    norm_num [defaultMaxRetries, List.range_succ]

/-! ### Canonical argument serialization (`json.dumps(args, sort_keys=True)`)

The agent loop canonicalizes each tool call's arguments with Python's
`json.dumps` under `sort_keys=True` (default separators `", "` and `": "`).
The embedding covers the escapes the common control characters need; other
characters are emitted verbatim. -/

/-- Serialize one character of a JSON string (quote, backslash and the
common control characters escaped). -/
def jsonQuoteChar (c : Char) : String :=
  if c = '"' then "\\\""
  else if c = '\\' then "\\\\"
  else if c = '\n' then "\\n"
  else if c = '\t' then "\\t"
  else if c = '\r' then "\\r"
  else String.singleton c

/-- Serialize a JSON string with its quotes. -/
def jsonQuote (s : String) : String :=
  "\"" ++ String.join (s.toList.map jsonQuoteChar) ++ "\""

/-- Lexicographic order on code points (Python string comparison). -/
def charListLe : List Char → List Char → Bool
  | [], _ => true
  | _ :: _, [] => false
  | a :: as, b :: bs =>
      if a.toNat < b.toNat then true
      else if b.toNat < a.toNat then false
      else charListLe as bs

/-- `a <= b` on strings by code point. -/
def keyLe (a b : String) : Bool := charListLe a.toList b.toList

/-- Stable insertion into a key-sorted list of rendered fields. -/
def insertByKey (kv : String × String) : List (String × String) → List (String × String)
  | [] => [kv]
  | hd :: tl => if keyLe kv.1 hd.1 then kv :: hd :: tl else hd :: insertByKey kv tl

/-- Stable sort of rendered fields by key (Python's `sorted` on dict keys). -/
def sortByKey : List (String × String) → List (String × String)
  | [] => []
  | kv :: rest => insertByKey kv (sortByKey rest)

mutual

/-- `json.dumps(v, sort_keys=True)`: object keys sorted lexicographically at
every level, separators `", "` and `": "`. -/
def jsonDumpsSorted : Json → String
  | Json.null => "null"
  | Json.bool true => "true"
  | Json.bool false => "false"
  | Json.num n => toString n
  | Json.str s => jsonQuote s
  | Json.arr xs => "[" ++ String.intercalate ", " (dumpsList xs) ++ "]"
  | Json.obj fs =>
      "\x7b"
        ++ String.intercalate ", "
            ((sortByKey (dumpsFields fs)).map (fun kv => jsonQuote kv.1 ++ ": " ++ kv.2))
        ++ "\x7d"

/-- Render each array item. -/
def dumpsList : List Json → List String
  | [] => []
  | x :: xs => jsonDumpsSorted x :: dumpsList xs

/-- Render each object field's value, keeping its key. -/
def dumpsFields : List (String × Json) → List (String × String)
  | [] => []
  | kv :: fs => (kv.1, jsonDumpsSorted kv.2) :: dumpsFields fs

end

/-! ### The agent loop (`src/agent/agent.py`)

The loop consumes `chat_completion`'s event stream reacting to exactly three
event types (lines 50-60): text deltas (accumulated and forwarded), completed
tool calls (collected), and errors (surfaced, the loop continues).  A model
behaviour is embedded as the per-turn list of those items; tool dispatch
(`tool_registry.invoke` with the configured working directory) as a function
from tool call to result. -/

/-- One stream item the loop reacts to in a turn. -/
inductive ModelItem where
  | text (s : String) : ModelItem
  | call (tc : ToolCall) : ModelItem
  | err (s : String) : ModelItem

/-- `AgentEvent` (`agent/events.py` is not under `src/`; the constructors and
payloads are exactly those `Agent.run` and `Agent._agentic_loop` emit). -/
inductive AgentEvent where
  | agentStart (message : String) : AgentEvent
  | textDelta (s : String) : AgentEvent
  | textComplete (content : String) : AgentEvent
  | agentError (s : String) : AgentEvent
  | toolCallStart (call_id name : String) (arguments : List (String × Json)) : AgentEvent
  | toolCallComplete (call_id name : String) (result : ToolResult) : AgentEvent
  | agentEnd (finalResponse : Option String) : AgentEvent

/-- The accumulated `response_text` of a turn (line 53). -/
def itemsText : List ModelItem → String
  | [] => ""
  | ModelItem.text s :: rest => s ++ itemsText rest
  | _ :: rest => itemsText rest

/-- The collected `tool_calls` of a turn in arrival order (line 57). -/
def itemsCalls : List ModelItem → List ToolCall
  | [] => []
  | ModelItem.call tc :: rest => tc :: itemsCalls rest
  | _ :: rest => itemsCalls rest

/-- The events yielded while draining the stream (lines 50-60): each text
delta forwarded, each error surfaced (with the source's fallback text for a
falsy message), tool-call completions collected silently. -/
def streamAgentEvents : List ModelItem → List AgentEvent
  | [] => []
  | ModelItem.text s :: rest => AgentEvent.textDelta s :: streamAgentEvents rest
  | ModelItem.call _ :: rest => streamAgentEvents rest
  | ModelItem.err s :: rest =>
      AgentEvent.agentError (if s.isEmpty then "Uknown error occured." else s)
        :: streamAgentEvents rest

/-- A turn's events before any tool execution: the forwarded stream events,
then `text_complete` when the accumulated text is truthy (lines 73-74). -/
def turnPreEvents (items : List ModelItem) : List AgentEvent :=
  streamAgentEvents items
    ++ (if (itemsText items).isEmpty then []
        else [AgentEvent.textComplete (itemsText items)])

/-- The loop-detection signature of one call (lines 80-83):
`(tc.name or "", json.dumps(tc.arguments, sort_keys=True))`. -/
def signatureOf (tc : ToolCall) : String × String :=
  (tc.name, jsonDumpsSorted (Json.obj tc.arguments))

/-- The ordered signature list of a turn's calls. -/
def signaturesOf (tcs : List ToolCall) : List (String × String) :=
  tcs.map signatureOf

/-- The human-readable loop notice (line 86). -/
def loopNotice : String := "\n[Loop detected — the same tool calls were repeated. Stopping.]\n"

/-- Sequential tool execution (lines 93-118): per call, a start event, the
dispatch, a completion event carrying the result. -/
def execEvents (execT : ToolCall → ToolResult) : List ToolCall → List AgentEvent
  | [] => []
  | tc :: rest =>
      AgentEvent.toolCallStart tc.call_id tc.name tc.arguments
        :: AgentEvent.toolCallComplete tc.call_id tc.name (execT tc)
        :: execEvents execT rest

/-- What one run of `_agentic_loop` did: how many model calls it made, which
tool calls it executed (in order), and the events it yielded. -/
structure LoopTrace where
  modelCalls : Nat
  executed : List ToolCall
  events : List AgentEvent

/-- `Agent._agentic_loop` from a given turn with the given remaining turn
budget and previous-turn signature list (`recent_tool_calls`, initially
empty).  Each iteration makes one model call; a turn without tool calls
returns; a turn whose signature list equals the previous turn's yields the
single loop notice and returns without executing; otherwise the calls execute
sequentially and the loop continues with the signature list as the new
`recent_tool_calls`. -/
def loopGo (model : Nat → List ModelItem) (execT : ToolCall → ToolResult) :
    Nat → Nat → List (String × String) → LoopTrace
  | 0, _, _ => { modelCalls := 0, executed := [], events := [] }
  | Nat.succ n, t, recent =>
    let items := model t
    let calls := itemsCalls items
    if calls.isEmpty then
      { modelCalls := 1, executed := [], events := turnPreEvents items }
    else if signaturesOf calls = recent then
      { modelCalls := 1, executed := [],
        events := turnPreEvents items ++ [AgentEvent.textDelta loopNotice] }
    else
      let rest := loopGo model execT n (t + 1) (signaturesOf calls)
      { modelCalls := 1 + rest.modelCalls,
        executed := calls ++ rest.executed,
        events := turnPreEvents items ++ execEvents execT calls ++ rest.events }

/-- `final_response` tracking in `Agent.run` (lines 29-30): the content of
the last `TEXT_COMPLETE` event, if any. -/
def lastTextComplete (evs : List AgentEvent) : Option String :=
  evs.foldl
    (fun acc e =>
      match e with
      | AgentEvent.textComplete s => some s
      | _ => acc)
    none

/-- `Agent.run`: `agent_start`, the loop's events, then `agent_end` carrying
the last completed text (possibly none). -/
def runAgent (model : Nat → List ModelItem) (execT : ToolCall → ToolResult)
    (maxTurns : Nat) (message : String) : List AgentEvent :=
  let trace := loopGo model execT maxTurns 0 []
  AgentEvent.agentStart message
    :: trace.events ++ [AgentEvent.agentEnd (lastTextComplete trace.events)]

/-! ### Agent-loop theorems -/

/-- The loop makes at most as many model calls as it has turns left. -/
theorem loopGo_modelCalls_le (model : Nat → List ModelItem) (execT : ToolCall → ToolResult) :
    ∀ n t recent, (loopGo model execT n t recent).modelCalls ≤ n := by
  intro n
  induction n with
  | zero => intro t recent; exact Nat.le_refl 0
  | succ n ih =>
    intro t recent
    unfold loopGo
    by_cases h1 : (itemsCalls (model t)).isEmpty = true
    · simp only [h1, if_true]
      omega
    · rw [if_neg h1]
      by_cases h2 : signaturesOf (itemsCalls (model t)) = recent
      · rw [if_pos h2]
        show 1 ≤ n + 1
        omega
      · rw [if_neg h2]
        have := ih (t + 1) (signaturesOf (itemsCalls (model t)))
        show 1 + (loopGo model execT n (t + 1) (signaturesOf (itemsCalls (model t)))).modelCalls
            ≤ n + 1
        omega

/-- When every turn in the remaining budget produces tool calls and no two
consecutive turns repeat a signature list, the loop consumes its whole
budget: exactly `n` model calls. -/
theorem loopGo_reaches_bound (model : Nat → List ModelItem) (execT : ToolCall → ToolResult) :
    ∀ n t recent,
      (∀ j, t ≤ j → j < t + n → (itemsCalls (model j)).isEmpty = false) →
      (∀ j, t ≤ j → j + 1 < t + n →
        signaturesOf (itemsCalls (model (j + 1))) ≠ signaturesOf (itemsCalls (model j))) →
      (n = 0 ∨ recent ≠ signaturesOf (itemsCalls (model t))) →
      (loopGo model execT n t recent).modelCalls = n := by
  intro n
  induction n with
  | zero => intro t recent _ _ _; rfl
  | succ n ih =>
    intro t recent H1 H2 H3
    have hcalls : (itemsCalls (model t)).isEmpty = false := H1 t (Nat.le_refl t) (by omega)
    have hrec : recent ≠ signaturesOf (itemsCalls (model t)) := by
      rcases H3 with h | h
      · exact absurd h (by omega)
      · exact h
    unfold loopGo
    rw [if_neg (by simp [hcalls]), if_neg (fun hh => hrec hh.symm)]
    have hrest := ih (t + 1) (signaturesOf (itemsCalls (model t)))
      (fun j hj1 hj2 => H1 j (by omega) (by omega))
      (fun j hj1 hj2 => H2 j (by omega) (by omega))
      (by
        rcases Nat.eq_zero_or_pos n with hn | hn
        · exact Or.inl hn
        · exact Or.inr (H2 t (Nat.le_refl t) (by omega)).symm)
    simp only
    omega

/-- Draining a stream without error items yields no `agent_error`. -/
theorem streamAgentEvents_no_error (items : List ModelItem)
    (h : ∀ s, ModelItem.err s ∉ items) :
    ∀ s, AgentEvent.agentError s ∉ streamAgentEvents items := by
  induction items with
  | nil => intro s hs; simp [streamAgentEvents] at hs
  | cons it rest ih =>
    have hrest : ∀ s, ModelItem.err s ∉ rest := fun s2 hs2 =>
      h s2 (List.mem_cons_of_mem _ hs2)
    intro s hs
    cases it with
    | text str =>
      rw [streamAgentEvents] at hs
      rcases List.mem_cons.mp hs with h1 | h1
      · simp at h1
      · exact ih hrest s h1
    | call tc =>
      rw [streamAgentEvents] at hs
      exact ih hrest s hs
    | err str =>
      exact absurd (List.mem_cons_self _ _) (h str)

/-- A turn's pre-execution events contain no `agent_error` when the turn's
stream carried no error. -/
theorem turnPreEvents_no_error (items : List ModelItem)
    (h : ∀ s, ModelItem.err s ∉ items) :
    ∀ s, AgentEvent.agentError s ∉ turnPreEvents items := by
  intro s hs
  unfold turnPreEvents at hs
  rcases List.mem_append.mp hs with h1 | h1
  · exact streamAgentEvents_no_error items h s h1
  · by_cases he : (itemsText items).isEmpty = true
    · rw [if_pos he] at h1; simp at h1
    · rw [if_neg he] at h1; simp at h1

/-- Tool execution yields only start/complete events, never `agent_error`. -/
theorem execEvents_no_error (execT : ToolCall → ToolResult) (calls : List ToolCall) :
    ∀ s, AgentEvent.agentError s ∉ execEvents execT calls := by
  induction calls with
  | nil => intro s hs; simp [execEvents] at hs
  | cons tc rest ih =>
    intro s hs
    rw [execEvents] at hs
    rcases List.mem_cons.mp hs with h1 | h1
    · simp at h1
    · rcases List.mem_cons.mp h1 with h2 | h2
      · simp at h2
      · exact ih s h2

/-- When no turn's stream carries an error, the loop emits no
`agent_error`. -/
theorem loopGo_no_error (model : Nat → List ModelItem) (execT : ToolCall → ToolResult) :
    ∀ n t recent, (∀ j s, ModelItem.err s ∉ model j) →
      ∀ s, AgentEvent.agentError s ∉ (loopGo model execT n t recent).events := by
  intro n
  induction n with
  | zero => intro t recent _ s hs; simp [loopGo] at hs
  | succ n ih =>
    intro t recent H s hs
    unfold loopGo at hs
    by_cases h1 : (itemsCalls (model t)).isEmpty = true
    · rw [if_pos h1] at hs
      exact turnPreEvents_no_error (model t) (H t) s hs
    · rw [if_neg h1] at hs
      by_cases h2 : signaturesOf (itemsCalls (model t)) = recent
      · rw [if_pos h2] at hs
        simp only at hs
        rcases List.mem_append.mp hs with ha | ha
        · exact turnPreEvents_no_error (model t) (H t) s ha
        · simp at ha
      · rw [if_neg h2] at hs
        simp only at hs
        rcases List.mem_append.mp hs with ha | ha
        · rcases List.mem_append.mp ha with hb | hb
          · exact turnPreEvents_no_error (model t) (H t) s hb
          · exact execEvents_no_error execT _ s hb
        · exact ih (t + 1) (signaturesOf (itemsCalls (model t))) H s ha

/-- C3 (turn bound): for every model behaviour the loop makes at most
`max_turns` model calls; the run always ends with `agent_end` carrying the
last completed text (possibly none); when every turn keeps producing fresh
tool calls the whole budget is consumed (exactly `max_turns` calls); and with
no stream errors the run contains no error event — reaching the bound is not
treated as an error. -/
theorem turn_bound (model : Nat → List ModelItem) (execT : ToolCall → ToolResult)
    (maxTurns : Nat) (message : String) :
    (loopGo model execT maxTurns 0 []).modelCalls ≤ maxTurns ∧
    (runAgent model execT maxTurns message).getLast?
        = some (AgentEvent.agentEnd (lastTextComplete (loopGo model execT maxTurns 0 []).events)) ∧
    ((∀ t, t < maxTurns → (itemsCalls (model t)).isEmpty = false) →
     (∀ t, t + 1 < maxTurns →
        signaturesOf (itemsCalls (model (t + 1))) ≠ signaturesOf (itemsCalls (model t))) →
     (loopGo model execT maxTurns 0 []).modelCalls = maxTurns) ∧
    ((∀ t s, ModelItem.err s ∉ model t) →
      ∀ s, AgentEvent.agentError s ∉ runAgent model execT maxTurns message) := by
  refine ⟨loopGo_modelCalls_le model execT maxTurns 0 [], ?_, ?_, ?_⟩
  · show (AgentEvent.agentStart message
        :: ((loopGo model execT maxTurns 0 []).events
            ++ [AgentEvent.agentEnd
                  (lastTextComplete (loopGo model execT maxTurns 0 []).events)])).getLast?
      = some (AgentEvent.agentEnd (lastTextComplete (loopGo model execT maxTurns 0 []).events))
    rw [← List.cons_append]
    exact List.getLast?_concat _
  · intro H1 H2
    refine loopGo_reaches_bound model execT maxTurns 0 [] ?_ ?_ ?_
    · intro j hj1 hj2; exact H1 j (by omega)
    · intro j hj1 hj2; exact H2 j (by omega)
    · rcases Nat.eq_zero_or_pos maxTurns with h | h
      · exact Or.inl h
      · refine Or.inr ?_
        have hcalls : (itemsCalls (model 0)).isEmpty = false := H1 0 h
        intro hsig
        rw [signaturesOf] at hsig
        cases hc : itemsCalls (model 0) with
        | nil => rw [hc] at hcalls; simp at hcalls
        | cons a l => rw [hc] at hsig; simp at hsig
  · intro H s hs
    unfold runAgent at hs
    rcases List.mem_cons.mp hs with h1 | h1
    · simp at h1
    · rcases List.mem_append.mp h1 with h2 | h2
      · exact loopGo_no_error model execT maxTurns 0 [] H s h2
      · simp at h2

/-- Unfold one step of a flattened map over `range'`. -/
theorem flatten_map_range'_step {α : Type} (f : Nat → List α) (s n : Nat) :
    (List.map f (List.range' s (n + 1))).flatten
      = f s ++ (List.map f (List.range' (s + 1) n)).flatten := by
  rw [List.range'_succ, List.map_cons, List.flatten_cons]

/-- Generalized loop detection: starting at turn `t` with a previous-turn
signature list that differs from turn `t`'s, if turns `t..t+k` keep producing
tool calls with no consecutive repetition and turn `t+k+1` repeats turn
`t+k`'s signature list exactly, then the loop runs exactly `k+2` model calls,
executes only turns `t..t+k`'s calls, and its events end with turn `t+k+1`'s
pre-execution events followed by the single loop notice. -/
theorem loopGo_detect (model : Nat → List ModelItem) (execT : ToolCall → ToolResult) :
    ∀ k t recent n,
      (∀ j, t ≤ j → j ≤ t + k → (itemsCalls (model j)).isEmpty = false) →
      (∀ j, t ≤ j → j < t + k →
        signaturesOf (itemsCalls (model (j + 1))) ≠ signaturesOf (itemsCalls (model j))) →
      signaturesOf (itemsCalls (model (t + k + 1)))
          = signaturesOf (itemsCalls (model (t + k))) →
      recent ≠ signaturesOf (itemsCalls (model t)) →
      k + 2 ≤ n →
      loopGo model execT n t recent
        = { modelCalls := k + 2,
            executed := ((List.range' t (k + 1)).map (fun j => itemsCalls (model j))).flatten,
            events := ((List.range' t (k + 1)).map
                  (fun j => turnPreEvents (model j) ++ execEvents execT (itemsCalls (model j)))).flatten
                ++ turnPreEvents (model (t + k + 1)) ++ [AgentEvent.textDelta loopNotice] } := by
  intro k
  induction k with
  | zero =>
    intro t recent n H1 H2 H3 Hrec Hn
    obtain ⟨m, rfl⟩ : ∃ m, n = m + 2 := ⟨n - 2, by omega⟩
    have hcalls_t : (itemsCalls (model t)).isEmpty = false := H1 t (Nat.le_refl t) (by omega)
    have H3' : signaturesOf (itemsCalls (model (t + 1)))
        = signaturesOf (itemsCalls (model t)) := by simpa using H3
    have hcalls_t1 : (itemsCalls (model (t + 1))).isEmpty = false := by
      cases hl : itemsCalls (model (t + 1)) with
      | nil =>
        rw [hl] at H3'
        cases hl0 : itemsCalls (model t) with
        | nil => rw [hl0] at hcalls_t; simp at hcalls_t
        | cons a l => rw [hl0] at H3'; simp [signaturesOf] at H3'
      | cons a l => simp
    unfold loopGo
    rw [if_neg (by simp [hcalls_t]), if_neg (fun hh => Hrec hh.symm)]
    unfold loopGo
    rw [if_neg (by simp [hcalls_t1]), if_pos H3']
    simp only [LoopTrace.mk.injEq]
    refine ⟨trivial, ?_, ?_⟩
    · simp [List.range']
    · simp [List.range', List.append_assoc]

  | succ k ih =>
    intro t recent n H1 H2 H3 Hrec Hn
    obtain ⟨m, rfl⟩ : ∃ m, n = m + 1 := ⟨n - 1, by omega⟩
    have hcalls_t : (itemsCalls (model t)).isEmpty = false := H1 t (Nat.le_refl t) (by omega)
    unfold loopGo
    rw [if_neg (by simp [hcalls_t]), if_neg (fun hh => Hrec hh.symm)]
    have ihres := ih (t + 1) (signaturesOf (itemsCalls (model t))) m
      (fun j hj1 hj2 => H1 j (by omega) (by omega))
      (fun j hj1 hj2 => H2 j (by omega) (by omega))
      (by rw [show t + 1 + k = t + (k + 1) from by omega]; exact H3)
      ((H2 t (Nat.le_refl t) (by omega)).symm)
      (by omega)
    rw [ihres]
    simp only [LoopTrace.mk.injEq]
    refine ⟨by omega, ?_, ?_⟩
    · simp [flatten_map_range'_step, List.append_assoc]
    · simp [flatten_map_range'_step, List.append_assoc]
      rw [show t + 1 + k + 1 = t + (k + 1) + 1 from by omega]

/-- C4 (loop detection): if turns `0..k` keep producing tool calls without
consecutive repetition and turn `k+1`'s ordered (name, canonical-JSON) list
is elementwise identical to turn `k`'s, then the loop makes exactly `k+2`
model calls and stops: it executes exactly turns `0..k`'s calls — none of
turn `k+1`'s — and its events end with turn `k+1`'s pre-execution events
followed by the single loop-notice text delta, after which the run
terminates. -/
theorem loop_detection (model : Nat → List ModelItem) (execT : ToolCall → ToolResult)
    (maxTurns k : Nat)
    (H1 : ∀ j, j ≤ k → (itemsCalls (model j)).isEmpty = false)
    (H2 : ∀ j, j < k →
      signaturesOf (itemsCalls (model (j + 1))) ≠ signaturesOf (itemsCalls (model j)))
    (H3 : signaturesOf (itemsCalls (model (k + 1))) = signaturesOf (itemsCalls (model k)))
    (H4 : k + 2 ≤ maxTurns) :
    loopGo model execT maxTurns 0 []
      = { modelCalls := k + 2,
          executed := ((List.range (k + 1)).map (fun j => itemsCalls (model j))).flatten,
          events := ((List.range (k + 1)).map
                (fun j => turnPreEvents (model j) ++ execEvents execT (itemsCalls (model j)))).flatten
              ++ turnPreEvents (model (k + 1)) ++ [AgentEvent.textDelta loopNotice] } := by
  have h := loopGo_detect model execT k 0 [] maxTurns
    (fun j hj1 hj2 => H1 j (by omega))
    (fun j hj1 hj2 => H2 j (by omega))
    (by simpa using H3)
    (by
      have hc : (itemsCalls (model 0)).isEmpty = false := H1 0 (by omega)
      intro hsig
      cases hl : itemsCalls (model 0) with
      | nil => rw [hl] at hc; simp at hc
      | cons a l => rw [hl] at hsig; simp [signaturesOf] at hsig)
    H4
  rw [h, List.range_eq_range']
  simp

/-- A model behaviour that issues one distinct tool call per turn. -/
def c3model : Nat → List ModelItem :=
  fun t => [ModelItem.call { call_id := "c", name := toString t, arguments := [] }]

/-- A tool dispatch that always succeeds. -/
def okExec : ToolCall → ToolResult :=
  fun _ => ToolResult.success_result "ok" (Metadata.dict [])

/-- Witness for C3: with `max_turns = 2` and a model issuing a fresh call
every turn, the loop makes exactly 2 model calls and stops. -/
theorem turn_bound_witness :
    (loopGo c3model okExec 2 0 []).modelCalls = 2 :=
  (turn_bound c3model okExec 2 "go").2.2.1
    (fun t _ => rfl)
    (fun t ht => by
      have h0 : t = 0 := by omega
      subst h0
      simp only [c3model, itemsCalls, signaturesOf, signatureOf, List.map, jsonDumpsSorted,
        dumpsFields, sortByKey]
      decide)

/-- A model behaviour that repeats the identical tool call every turn. -/
def c4model : Nat → List ModelItem :=
  fun _ =>
    [ModelItem.text "reading",
     ModelItem.call { call_id := "c1", name := "read_file",
                      arguments := [("path", Json.str "a.py")] }]

/-- Witness for C4 at `k = 0`, `max_turns = 2`: turns 0 and 1 carry the
identical call, so the run stops after 2 model calls having executed only
turn 0's call, and the events end with the single loop notice. -/
theorem loop_detection_witness :
    (loopGo c4model okExec 2 0 []).modelCalls = 2 ∧
    (loopGo c4model okExec 2 0 []).executed
      = [{ call_id := "c1", name := "read_file", arguments := [("path", Json.str "a.py")] }] ∧
    (loopGo c4model okExec 2 0 []).events
      = [AgentEvent.textDelta "reading", AgentEvent.textComplete "reading",
         AgentEvent.toolCallStart "c1" "read_file" [("path", Json.str "a.py")],
         AgentEvent.toolCallComplete "c1" "read_file"
           (ToolResult.success_result "ok" (Metadata.dict [])),
         AgentEvent.textDelta "reading", AgentEvent.textComplete "reading",
         AgentEvent.textDelta loopNotice] := by
  have h := loop_detection c4model okExec 2 0
    (fun j _ => rfl) (fun j hj => absurd hj (by omega)) rfl (by omega)
  rw [h]
  refine ⟨rfl, ?_, ?_⟩
  · rfl
  · rfl

end Krypto
